import Mathlib

/-!
Verification of the lintiflux Tag & Cluster Association Engine.

This file gives a shallow embedding, as Lean functions over an explicit
storage state, of the storage-layer operations found in
`internal/storage/tag.go` and `internal/storage/cluster.go`, together with
theorems about those operations.

Modelling conventions:
- Go `int64` identifiers and timestamps are modelled as `Int`; no arithmetic
  is performed on them, only comparison, so overflow is irrelevant.
- `time.Time` values (`created_at`, `expires_at`) are modelled as `Int`
  instants; the SQL `NOW()` is passed in explicitly as a `now` parameter.
- SQL tables are lists of records; the `WHERE` clauses of each query are
  translated literally into the corresponding Boolean filters.
- `ORDER BY` clauses are not modelled: every theorem below is about
  membership, multiplicity or counts, none of which depend on result order.
- Fallible database calls are modelled with `Except String` or, for the
  transactional operations, with an explicit fault schedule (one Boolean per
  executed statement) so that rollback behaviour can be stated.
- The `ON DELETE CASCADE` behaviour of the association tables lives in the
  SQL schema, which is not part of `src/`; it is modelled from the spec
  ("Deleting a Tag cascades deletion of all its Entry-Tag associations",
  "cascades ClusterEntry deletion") and from the source comment in
  `MergeTags` ("cascade will remove entry_tags").
-/

namespace Lintiflux

/-- A row of the `tags` table (`model.Tag`, internal/model/tag.go). -/
structure Tag where
  id : Int
  userID : Int
  name : String
  createdAt : Int
deriving DecidableEq

/-- A row of the `entry_tags` table (`model.EntryTag`). The denormalized
`tagName` display field is filled by read queries and not stored, so it is
omitted from the stored row. -/
structure EntryTag where
  entryID : Int
  tagID : Int
  source : String
  createdAt : Int
deriving DecidableEq

/-- The slice of an `entries` row that the association engine reads:
its identity and its owner. -/
structure Entry where
  id : Int
  userID : Int
deriving DecidableEq

/-- A row of the `clusters` table (`model.Cluster`).  `expiresAt = none`
models a SQL NULL `expires_at`. -/
structure Cluster where
  id : Int
  userID : Int
  name : String
  createdAt : Int
  expiresAt : Option Int
deriving DecidableEq

/-- A row of the `cluster_entries` table (`model.ClusterEntry`). -/
structure ClusterEntry where
  clusterID : Int
  entryID : Int
deriving DecidableEq

/-- The backing relational store: one list per table. -/
structure Storage where
  tags : List Tag
  entries : List Entry
  entry_tags : List EntryTag
  clusters : List Cluster
  cluster_entries : List ClusterEntry
deriving DecidableEq

/-- The tag source constants of internal/model/tag.go. -/
def TagSourceManual : String := "manual"

/-- `model.TagSourceAuto`. -/
def TagSourceAuto : String := "auto"

/-! ## Tag store operations (internal/storage/tag.go) -/

/-- `UpdateTag` (tag.go:127-137): `UPDATE tags SET name=$1 WHERE id=$2 AND
user_id=$3`.  The Go code ignores the number of affected rows and returns
`nil` unless the statement itself fails, so the embedding always succeeds. -/
def updateTag (tag : Tag) (st : Storage) : Except String Storage :=
  Except.ok { st with
    tags := st.tags.map (fun t =>
      if t.id == tag.id && t.userID == tag.userID then { t with name := tag.name } else t) }

/-- `RemoveTag` (tag.go:139-157): `DELETE FROM tags WHERE id=$1 AND
user_id=$2`, then errors when `RowsAffected` is zero.  The cascade to
`entry_tags` is modelled from the spec (schema not in src/): deleting the
tag row also deletes the associations referencing it. -/
def removeTag (userID tagID : Int) (st : Storage) : Except String Storage :=
  if (st.tags.filter (fun t => !(t.id == tagID && t.userID == userID))).length
      == st.tags.length then
    Except.error "store: no tag has been removed"
  else
    Except.ok { st with
      tags := st.tags.filter (fun t => !(t.id == tagID && t.userID == userID)),
      entry_tags := st.entry_tags.filter (fun et => !(et.tagID == tagID)) }

/-! ## Entry-tag association operations (internal/storage/tag.go, second part) -/

/-- The composite-key test `entry_id = $1 AND tag_id = $2` on an
`entry_tags` row. -/
def pairB (entryID tagID : Int) (et : EntryTag) : Bool :=
  et.entryID == entryID && et.tagID == tagID

/-- The `DO UPDATE SET source = $3` conflict action of `AddTagToEntry`,
applied to one row: rows with the conflicting composite key get the new
source, all others are unchanged. -/
def updSource (entryID tagID : Int) (src : String) (et : EntryTag) : EntryTag :=
  if pairB entryID tagID et then { et with source := src } else et

/-- `AddTagToEntry` (tag.go:249-279).  Verifies that the entry and the tag
belong to `userID` (the `QueryRow(...).Scan` calls error when no row
matches), defaults an empty source to `manual`, then upserts:
`INSERT INTO entry_tags ... ON CONFLICT (entry_id, tag_id) DO UPDATE SET
source = $3`.  On insert, `created_at` is filled by the column default,
modelled by the `now` parameter. -/
def addTagToEntry (userID entryID tagID : Int) (source : String) (now : Int)
    (st : Storage) : Except String Storage :=
  if !(st.entries.any (fun e => e.id == entryID && e.userID == userID)) then
    Except.error "store: entry not found for user"
  else if !(st.tags.any (fun t => t.id == tagID && t.userID == userID)) then
    Except.error "store: tag not found for user"
  else
    let src := if source == "" then TagSourceManual else source
    if st.entry_tags.any (pairB entryID tagID) then
      Except.ok { st with entry_tags := st.entry_tags.map (updSource entryID tagID src) }
    else
      Except.ok { st with entry_tags := st.entry_tags ++ [⟨entryID, tagID, src, now⟩] }

/-- `RemoveTagFromEntry` (tag.go:311-327).  Verifies that the entry belongs
to `userID`, then `DELETE FROM entry_tags WHERE entry_id=$1 AND tag_id=$2`;
the number of deleted rows is not inspected. -/
def removeTagFromEntry (userID entryID tagID : Int) (st : Storage) :
    Except String Storage :=
  if st.entries.any (fun e => e.id == entryID && e.userID == userID) then
    Except.ok { st with
      entry_tags := st.entry_tags.filter (fun et => !(et.entryID == entryID && et.tagID == tagID)) }
  else
    Except.error "store: entry not found for user"

/-! ## Tag merge (internal/storage/tag.go:197-236) -/

/-- One row insertion of the `INSERT ... SELECT ... ON CONFLICT (entry_id,
tag_id) DO NOTHING` statement of `MergeTags`: the selected association `et`
is re-pointed at `targetTagID`, keeping its `source` and `created_at`, and
is dropped when the table already holds a row with the same
`(entry_id, tag_id)` key. -/
def insTarget (targetTagID : Int) (acc : List EntryTag) (et : EntryTag) : List EntryTag :=
  if acc.any (fun x => x.entryID == et.entryID && x.tagID == targetTagID) then acc
  else acc ++ [⟨et.entryID, targetTagID, et.source, et.createdAt⟩]

/-- The reassignment statement of `MergeTags` (tag.go:211-217): the rows
selected by `WHERE et.tag_id = $2` (note: no user scoping in the source) are
inserted with `tag_id = $1`, each insert subject to the conflict skip. -/
def reassignInsert (targetTagID sourceTagID : Int) (st : Storage) : Storage :=
  { st with
    entry_tags :=
      (st.entry_tags.filter (fun et => et.tagID == sourceTagID)).foldl
        (insTarget targetTagID) st.entry_tags }

/-- The source-tag deletion statement of `MergeTags` (tag.go:223-228):
`DELETE FROM tags WHERE id = $1 AND user_id = $2`, with the schema-level
cascade (modelled from the spec and the source comment "cascade will remove
entry_tags"): when the tag row is actually deleted, the associations
referencing it are deleted too; when no row matches, nothing happens. -/
def deleteTagCascade (userID tagID : Int) (st : Storage) : Storage :=
  if st.tags.any (fun t => t.id == tagID && t.userID == userID) then
    { st with
      tags := st.tags.filter (fun t => !(t.id == tagID && t.userID == userID)),
      entry_tags := st.entry_tags.filter (fun et => !(et.tagID == tagID)) }
  else st

/-- One iteration of the `MergeTags` loop: skip a self-merge, otherwise run
the reassignment insert followed by the source-tag deletion. -/
def mergeStep (userID targetTagID : Int) (st : Storage) (sourceTagID : Int) : Storage :=
  if sourceTagID = targetTagID then st
  else deleteTagCascade userID sourceTagID (reassignInsert targetTagID sourceTagID st)

/-- The committed effect of a successful `MergeTags userID targetTagID
sourceTagIDs` call (tag.go:197-236). -/
def mergeTags (userID targetTagID : Int) (sourceTagIDs : List Int) (st : Storage) : Storage :=
  sourceTagIDs.foldl (mergeStep userID targetTagID) st

/-- The statement loop of `MergeTags` under a fault schedule: `fault i`
decides whether the `i`-th executed `tx.Exec` fails.  The loop operates on
the transaction-local state `tx` and surfaces the first error. -/
def mergeLoop (userID targetTagID : Int) (fault : Nat → Bool) :
    List Int → Nat → Storage → Except String Storage
  | [], _, tx => Except.ok tx
  | sid :: rest, i, tx =>
    if sid = targetTagID then
      mergeLoop userID targetTagID fault rest i tx
    else if fault i then
      Except.error "store: unable to reassign entries"
    else if fault (i + 1) then
      Except.error "store: unable to delete source tag"
    else
      mergeLoop userID targetTagID fault rest (i + 2)
        (deleteTagCascade userID sid (reassignInsert targetTagID sid tx))

/-- `MergeTags` with its transaction boundary: `s.db.Begin()` may fail
(`beginFail`), every `tx.Exec` may fail (`fault`), and `tx.Commit()` may
fail (`commitFail`).  The first component is the state observable after the
call: the original state when the transaction was rolled back or never
committed, the transaction-local state when the commit succeeded.  The
second component is the returned error, if any. -/
def mergeTagsFaulty (fault : Nat → Bool) (beginFail commitFail : Bool)
    (userID targetTagID : Int) (sourceTagIDs : List Int) (st : Storage) :
    Storage × Option String :=
  if beginFail then (st, some "store: unable to begin transaction")
  else
    match mergeLoop userID targetTagID fault sourceTagIDs 0 st with
    | Except.error e => (st, some e)
    | Except.ok tx =>
      if commitFail then (st, some "store: unable to commit transaction")
      else (tx, none)

/-! ## Cluster store operations (internal/storage/cluster.go) -/

/-- The SQL filter `expires_at IS NULL OR expires_at > NOW()` used by the
listing queries (`Clusters`, `GetEntryClusters`). -/
def clusterActive (now : Int) (c : Cluster) : Bool :=
  match c.expiresAt with
  | none => true
  | some t => now < t

/-- The SQL filter `expires_at IS NOT NULL AND expires_at < NOW()` of
`RemoveExpiredClusters`. -/
def isExpired (now : Int) (c : Cluster) : Bool :=
  match c.expiresAt with
  | none => false
  | some t => t < now

/-- `ClusterByID` (cluster.go:15-40): `SELECT ... FROM clusters WHERE
user_id=$1 AND id=$2`, returning `none` (not an error) when no row matches.
No expiry filter is applied. -/
def clusterByID (userID clusterID : Int) (st : Storage) : Option Cluster :=
  st.clusters.find? (fun c => c.userID == userID && c.id == clusterID)

/-- `Clusters` (cluster.go:42-75): selects the caller's clusters filtered by
`expires_at IS NULL OR expires_at > NOW()`, each annotated with the live
entry count `(SELECT COUNT(*) FROM cluster_entries WHERE cluster_id = c.id)`. -/
def clustersList (userID now : Int) (st : Storage) : List (Cluster × Nat) :=
  (st.clusters.filter (fun c => c.userID == userID && clusterActive now c)).map
    (fun c => (c, (st.cluster_entries.filter (fun ce => ce.clusterID == c.id)).length))

/-- `GetEntryClusters` (cluster.go:344-376): clusters joined with
`cluster_entries` on `ce.entry_id = $1 AND c.user_id = $2` and filtered by
the same activity condition as `Clusters`.  Because `(cluster_id, entry_id)`
is unique in `cluster_entries`, the join yields each matching cluster once,
modelled by an existence test on the association table. -/
def getEntryClusters (userID entryID now : Int) (st : Storage) : List Cluster :=
  st.clusters.filter (fun c =>
    c.userID == userID && clusterActive now c &&
      st.cluster_entries.any (fun ce => ce.clusterID == c.id && ce.entryID == entryID))

/-- `AddEntryToCluster` (cluster.go:112-125): `INSERT INTO cluster_entries
(cluster_id, entry_id) VALUES ($1, $2) ON CONFLICT (cluster_id, entry_id)
DO NOTHING`. -/
def addEntryToCluster (clusterID entryID : Int) (st : Storage) : Storage :=
  if st.cluster_entries.any (fun ce => ce.clusterID == clusterID && ce.entryID == entryID) then st
  else { st with cluster_entries := st.cluster_entries ++ [⟨clusterID, entryID⟩] }

/-- The statement loop of `AddEntriesToCluster` under a fault schedule:
`fault i` decides whether the `i`-th `stmt.Exec` fails. -/
def addEntriesLoop (clusterID : Int) (fault : Nat → Bool) :
    List Int → Nat → Storage → Except String Storage
  | [], _, tx => Except.ok tx
  | entryID :: rest, i, tx =>
    if fault i then Except.error "store: unable to add entry to cluster"
    else addEntriesLoop clusterID fault rest (i + 1) (addEntryToCluster clusterID entryID tx)

/-- `AddEntriesToCluster` (cluster.go:127-157): returns immediately on an
empty list; otherwise begins a transaction, prepares the insert statement,
runs one `ON CONFLICT DO NOTHING` insert per entry ID, and commits.  Any
failure rolls the transaction back.  As in `mergeTagsFaulty`, the first
component is the observable state after the call. -/
def addEntriesToCluster (beginFail prepareFail commitFail : Bool) (fault : Nat → Bool)
    (clusterID : Int) (entryIDs : List Int) (st : Storage) : Storage × Option String :=
  if entryIDs.isEmpty then (st, none)
  else if beginFail then (st, some "store: unable to begin transaction")
  else if prepareFail then (st, some "store: unable to prepare statement")
  else
    match addEntriesLoop clusterID fault entryIDs 0 st with
    | Except.error e => (st, some e)
    | Except.ok tx =>
      if commitFail then (st, some "store: unable to commit transaction")
      else (tx, none)

/-- `RemoveExpiredClusters` (cluster.go:277-286): `DELETE FROM clusters
WHERE expires_at IS NOT NULL AND expires_at < NOW()` (no user scoping),
returning `RowsAffected`, i.e. the number of deleted cluster rows.  The
cascade to `cluster_entries` is modelled from the spec ("cascades
ClusterEntry deletion"; schema not in src/). -/
def removeExpiredClusters (now : Int) (st : Storage) : Storage × Nat :=
  ({ st with
      clusters := st.clusters.filter (fun c => !(isExpired now c)),
      cluster_entries := st.cluster_entries.filter (fun ce =>
        !(st.clusters.any (fun c => isExpired now c && c.id == ce.clusterID))) },
   (st.clusters.filter (fun c => isExpired now c)).length)

/-! ## Derived notions used by the claims -/

/-- Invariant I2 of the spec, as a decidable check: every `entry_tags` row
references a tag owned by the same user that owns the entry. -/
def i2 (st : Storage) : Bool :=
  st.entry_tags.all (fun et =>
    st.tags.any (fun t =>
      t.id == et.tagID &&
        st.entries.any (fun e => e.id == et.entryID && e.userID == t.userID)))

/-- Uniqueness of `(entry_id, tag_id)` pairs in a list of associations
(invariant I3 / the composite uniqueness constraint of `entry_tags`). -/
abbrev UniqPairs (l : List EntryTag) : Prop :=
  l.Pairwise (fun a b => ¬(a.entryID = b.entryID ∧ a.tagID = b.tagID))

/-- Number of `entry_tags` rows for a given `(entry_id, tag_id)` pair. -/
def etCount (st : Storage) (entryID tagID : Int) : Nat :=
  (st.entry_tags.filter (pairB entryID tagID)).length

/-- Number of `cluster_entries` rows for a given `(cluster_id, entry_id)`
pair. -/
def ceCount (st : Storage) (clusterID entryID : Int) : Nat :=
  (st.cluster_entries.filter (fun ce => ce.clusterID == clusterID && ce.entryID == entryID)).length

/-- The live entry count of a cluster: the `COUNT(*)` subquery of
`Clusters`. -/
def clusterEntryCount (st : Storage) (clusterID : Int) : Nat :=
  (st.cluster_entries.filter (fun ce => ce.clusterID == clusterID)).length

/-- `n`-fold repetition of `AddEntryToCluster` for the same pair. -/
def addEntryTimes (clusterID entryID : Int) : Nat → Storage → Storage
  | 0, st => st
  | n + 1, st => addEntryTimes clusterID entryID n (addEntryToCluster clusterID entryID st)

/-! ## General list lemmas -/

theorem map_id_of_eq {α : Type} (l : List α) (f : α → α) (h : ∀ x ∈ l, f x = x) :
    l.map f = l := by
  induction l with
  | nil => rfl
  | cons a t ih =>
    simp only [List.map_cons]
    rw [h a (List.mem_cons_self a t), ih (fun x hx => h x (List.mem_cons_of_mem a hx))]

/-! ## Lemmas about the merge reassignment insert -/

theorem insTarget_cases (T : Int) (acc : List EntryTag) (et : EntryTag) :
    insTarget T acc et = acc ∨
      insTarget T acc et = acc ++ [⟨et.entryID, T, et.source, et.createdAt⟩] := by
  unfold insTarget
  split
  · exact Or.inl rfl
  · exact Or.inr rfl

theorem foldl_insTarget_mem (T : Int) (l : List EntryTag) :
    ∀ (acc : List EntryTag) (x : EntryTag), x ∈ acc → x ∈ l.foldl (insTarget T) acc := by
  induction l with
  | nil => intro acc x hx; simpa using hx
  | cons a t ih =>
    intro acc x hx
    simp only [List.foldl_cons]
    apply ih
    rcases insTarget_cases T acc a with h | h
    · rw [h]; exact hx
    · rw [h]; exact List.mem_append_left _ hx

theorem insTarget_pair (T : Int) (acc : List EntryTag) (et : EntryTag) :
    ∃ z ∈ insTarget T acc et, z.entryID = et.entryID ∧ z.tagID = T := by
  unfold insTarget
  split
  · next h =>
    obtain ⟨z, hz, hp⟩ := List.any_eq_true.mp h
    simp only [Bool.and_eq_true, beq_iff_eq] at hp
    exact ⟨z, hz, hp.1, hp.2⟩
  · exact ⟨⟨et.entryID, T, et.source, et.createdAt⟩,
      List.mem_append_right _ (List.mem_singleton.mpr rfl), rfl, rfl⟩

theorem foldl_insTarget_pair (T : Int) (l : List EntryTag) :
    ∀ (acc : List EntryTag) (et : EntryTag), et ∈ l →
      ∃ z ∈ l.foldl (insTarget T) acc, z.entryID = et.entryID ∧ z.tagID = T := by
  induction l with
  | nil => intro acc et h; simp at h
  | cons a t ih =>
    intro acc et h
    simp only [List.foldl_cons]
    rcases List.mem_cons.mp h with rfl | ht
    · obtain ⟨z, hz, h1, h2⟩ := insTarget_pair T acc et
      exact ⟨z, foldl_insTarget_mem T t _ z hz, h1, h2⟩
    · exact ih _ et ht

theorem foldl_insTarget_prov (T : Int) (l : List EntryTag) :
    ∀ (acc : List EntryTag) (x : EntryTag), x ∈ l.foldl (insTarget T) acc →
      x ∈ acc ∨ ∃ et ∈ l, x = ⟨et.entryID, T, et.source, et.createdAt⟩ := by
  induction l with
  | nil => intro acc x h; exact Or.inl (by simpa using h)
  | cons a t ih =>
    intro acc x h
    simp only [List.foldl_cons] at h
    rcases ih _ x h with hacc | ⟨et, het, hx⟩
    · rcases insTarget_cases T acc a with hc | hc
      · rw [hc] at hacc; exact Or.inl hacc
      · rw [hc] at hacc
        rcases List.mem_append.mp hacc with h1 | h1
        · exact Or.inl h1
        · exact Or.inr ⟨a, List.mem_cons_self a t, by simpa using h1⟩
    · exact Or.inr ⟨et, List.mem_cons_of_mem a het, hx⟩

theorem foldl_insTarget_uniq (T : Int) (l : List EntryTag) :
    ∀ acc : List EntryTag, UniqPairs acc → UniqPairs (l.foldl (insTarget T) acc) := by
  induction l with
  | nil => intro acc h; simpa using h
  | cons a t ih =>
    intro acc h
    simp only [List.foldl_cons]
    apply ih
    unfold insTarget
    split
    · exact h
    · next hany =>
      simp only [Bool.not_eq_true] at hany
      have hall := List.any_eq_false.mp hany
      unfold UniqPairs at h ⊢
      rw [List.pairwise_append]
      refine ⟨h, List.pairwise_singleton _ _, ?_⟩
      intro x hx b hb
      simp only [List.mem_singleton] at hb
      subst hb
      rintro ⟨h1, h2⟩
      exact hall x hx (by simp [h1, h2])

/-! ## Lemmas about the cascading source-tag delete -/

theorem deleteTagCascade_et_sub (u s : Int) (st : Storage) (x : EntryTag)
    (h : x ∈ (deleteTagCascade u s st).entry_tags) : x ∈ st.entry_tags := by
  unfold deleteTagCascade at h
  split at h
  · exact List.mem_of_mem_filter h
  · exact h

theorem deleteTagCascade_et_keep (u s : Int) (st : Storage) (x : EntryTag)
    (hx : x ∈ st.entry_tags) (hne : x.tagID ≠ s) :
    x ∈ (deleteTagCascade u s st).entry_tags := by
  unfold deleteTagCascade
  split
  · exact List.mem_filter.mpr ⟨hx, by simp [hne]⟩
  · exact hx

theorem deleteTagCascade_tags_sub (u s : Int) (st : Storage) (t : Tag)
    (h : t ∈ (deleteTagCascade u s st).tags) : t ∈ st.tags := by
  unfold deleteTagCascade at h
  split at h
  · exact List.mem_of_mem_filter h
  · exact h

theorem deleteTagCascade_deletes (u s : Int) (st : Storage) :
    ∀ t ∈ (deleteTagCascade u s st).tags, ¬(t.id = s ∧ t.userID = u) := by
  intro t ht
  unfold deleteTagCascade at ht
  split at ht
  · have hp := List.of_mem_filter ht
    simp only [Bool.not_eq_true', Bool.and_eq_false_iff, beq_eq_false_iff_ne] at hp
    rintro ⟨h1, h2⟩
    rcases hp with h | h
    · exact h h1
    · exact h h2
  · next hany =>
    simp only [Bool.not_eq_true] at hany
    have hall := List.any_eq_false.mp hany
    rintro ⟨h1, h2⟩
    exact hall t ht (by simp [h1, h2])

theorem deleteTagCascade_uniq (u s : Int) (st : Storage)
    (h : UniqPairs st.entry_tags) : UniqPairs (deleteTagCascade u s st).entry_tags := by
  unfold deleteTagCascade
  split
  · exact h.sublist (List.filter_sublist _)
  · exact h

/-! ## Lemmas about one merge step -/

theorem reassignInsert_tags (T s : Int) (st : Storage) :
    (reassignInsert T s st).tags = st.tags := rfl

theorem mergeStep_self (u T : Int) (st : Storage) : mergeStep u T st T = st := by
  simp [mergeStep]

theorem mergeStep_pair_persist (u T : Int) (st : Storage) (s E : Int)
    (h : ∃ z ∈ st.entry_tags, z.entryID = E ∧ z.tagID = T) :
    ∃ z ∈ (mergeStep u T st s).entry_tags, z.entryID = E ∧ z.tagID = T := by
  obtain ⟨z, hz, h1, h2⟩ := h
  unfold mergeStep
  split
  · exact ⟨z, hz, h1, h2⟩
  · next hne =>
    refine ⟨z, ?_, h1, h2⟩
    apply deleteTagCascade_et_keep
    · exact foldl_insTarget_mem T _ _ z hz
    · rw [h2]; exact fun hTs => hne hTs.symm

theorem mergeStep_et_keep (u T : Int) (st : Storage) (s : Int) (et : EntryTag)
    (hx : et ∈ st.entry_tags) (hne : et.tagID ≠ s) :
    et ∈ (mergeStep u T st s).entry_tags := by
  unfold mergeStep
  split
  · exact hx
  · exact deleteTagCascade_et_keep _ _ _ _ (foldl_insTarget_mem T _ _ et hx) hne

theorem mergeStep_pair_create (u T : Int) (st : Storage) (s : Int) (et : EntryTag)
    (hx : et ∈ st.entry_tags) (hs : et.tagID = s) (hne : s ≠ T) :
    ∃ z ∈ (mergeStep u T st s).entry_tags, z.entryID = et.entryID ∧ z.tagID = T := by
  unfold mergeStep
  rw [if_neg hne]
  have hsel : et ∈ st.entry_tags.filter (fun x => x.tagID == s) :=
    List.mem_filter.mpr ⟨hx, by simp [hs]⟩
  obtain ⟨z, hz, h1, h2⟩ := foldl_insTarget_pair T _ st.entry_tags et hsel
  refine ⟨z, ?_, h1, h2⟩
  exact deleteTagCascade_et_keep _ _ _ _ hz (by rw [h2]; exact fun hTs => hne hTs.symm)

theorem mergeStep_prov (u T : Int) (st : Storage) (s : Int) (x : EntryTag)
    (h : x ∈ (mergeStep u T st s).entry_tags) :
    x ∈ st.entry_tags ∨
      (s ≠ T ∧ ∃ et ∈ st.entry_tags, et.tagID = s ∧
        x = ⟨et.entryID, T, et.source, et.createdAt⟩) := by
  unfold mergeStep at h
  split at h
  · exact Or.inl h
  · next hne =>
    have h2 := deleteTagCascade_et_sub _ _ _ _ h
    rcases foldl_insTarget_prov T _ _ x h2 with h3 | ⟨et, het, hx⟩
    · exact Or.inl h3
    · refine Or.inr ⟨hne, et, List.mem_of_mem_filter het, ?_, hx⟩
      have := List.of_mem_filter het
      simpa using this

theorem mergeStep_tags_sub (u T : Int) (st : Storage) (s : Int) (t : Tag)
    (h : t ∈ (mergeStep u T st s).tags) : t ∈ st.tags := by
  unfold mergeStep at h
  split at h
  · exact h
  · have := deleteTagCascade_tags_sub u s _ t h
    rwa [reassignInsert_tags] at this

theorem mergeStep_deletes (u T : Int) (st : Storage) (s : Int) (hne : s ≠ T) :
    ∀ t ∈ (mergeStep u T st s).tags, ¬(t.id = s ∧ t.userID = u) := by
  intro t ht
  unfold mergeStep at ht
  rw [if_neg hne] at ht
  exact deleteTagCascade_deletes u s _ t ht

theorem mergeStep_uniq (u T : Int) (st : Storage) (s : Int)
    (h : UniqPairs st.entry_tags) : UniqPairs (mergeStep u T st s).entry_tags := by
  unfold mergeStep
  split
  · exact h
  · exact deleteTagCascade_uniq _ _ _ (foldl_insTarget_uniq T _ _ h)

/-! ## Lemmas about the whole merge -/

theorem mergeTags_pair_persist (u T : Int) (srcs : List Int) :
    ∀ (st : Storage) (E : Int),
      (∃ z ∈ st.entry_tags, z.entryID = E ∧ z.tagID = T) →
      ∃ z ∈ (mergeTags u T srcs st).entry_tags, z.entryID = E ∧ z.tagID = T := by
  induction srcs with
  | nil => intro st E h; simpa [mergeTags] using h
  | cons s rest ih =>
    intro st E h
    simp only [mergeTags, List.foldl_cons]
    exact ih _ E (mergeStep_pair_persist u T st s E h)

theorem mergeTags_reassigns (u T : Int) (srcs : List Int) :
    ∀ (st : Storage) (et : EntryTag), et ∈ st.entry_tags → et.tagID ∈ srcs → et.tagID ≠ T →
      ∃ z ∈ (mergeTags u T srcs st).entry_tags, z.entryID = et.entryID ∧ z.tagID = T := by
  induction srcs with
  | nil => intro st et _ h _; simp at h
  | cons s rest ih =>
    intro st et hmem hin hne
    simp only [mergeTags, List.foldl_cons]
    by_cases hs : et.tagID = s
    · have hsT : s ≠ T := by rw [← hs]; exact hne
      have h1 := mergeStep_pair_create u T st s et hmem hs hsT
      exact mergeTags_pair_persist u T rest _ et.entryID h1
    · have hin2 : et.tagID ∈ rest := by
        rcases List.mem_cons.mp hin with h | h
        · exact absurd h hs
        · exact h
      exact ih _ et (mergeStep_et_keep u T st s et hmem hs) hin2 hne

theorem mergeTags_prov (u T : Int) (srcs : List Int) :
    ∀ (st : Storage) (z : EntryTag), z ∈ (mergeTags u T srcs st).entry_tags →
      z ∈ st.entry_tags ∨
        (z.tagID = T ∧ ∃ et ∈ st.entry_tags, et.tagID ∈ srcs ∧ et.tagID ≠ T ∧
          et.entryID = z.entryID ∧ et.source = z.source ∧ et.createdAt = z.createdAt) := by
  induction srcs with
  | nil => intro st z h; exact Or.inl (by simpa [mergeTags] using h)
  | cons s rest ih =>
    intro st z h
    simp only [mergeTags, List.foldl_cons] at h
    rcases ih _ z h with h1 | ⟨hzT, et, het, hin, hneT, h3, h4, h5⟩
    · rcases mergeStep_prov u T st s z h1 with h2 | ⟨hne, et, het, hets, hz⟩
      · exact Or.inl h2
      · subst hz
        refine Or.inr ⟨rfl, et, het, ?_, ?_, rfl, rfl, rfl⟩
        · rw [hets]; exact List.mem_cons_self s rest
        · rw [hets]; exact hne
    · rcases mergeStep_prov u T st s et het with h6 | ⟨hne2, et2, het2, hets2, hz2⟩
      · exact Or.inr ⟨hzT, et, h6, List.mem_cons_of_mem s hin, hneT, h3, h4, h5⟩
      · exact absurd (by rw [hz2]) hneT

theorem mergeTags_keeps_target (u T : Int) (srcs : List Int) :
    ∀ (st : Storage) (et : EntryTag), et ∈ st.entry_tags → et.tagID = T →
      et ∈ (mergeTags u T srcs st).entry_tags := by
  induction srcs with
  | nil => intro st et h _; simpa [mergeTags] using h
  | cons s rest ih =>
    intro st et h hT
    simp only [mergeTags, List.foldl_cons]
    apply ih _ et _ hT
    by_cases hs : s = T
    · subst hs; rwa [mergeStep_self]
    · exact mergeStep_et_keep u T st s et h (by rw [hT]; exact fun h2 => hs h2.symm)

theorem mergeTags_uniq (u T : Int) (srcs : List Int) :
    ∀ st : Storage, UniqPairs st.entry_tags → UniqPairs (mergeTags u T srcs st).entry_tags := by
  induction srcs with
  | nil => intro st h; simpa [mergeTags] using h
  | cons s rest ih =>
    intro st h
    simp only [mergeTags, List.foldl_cons]
    exact ih _ (mergeStep_uniq u T st s h)

theorem mergeTags_skips_self (u T : Int) (srcs : List Int) :
    ∀ st : Storage, mergeTags u T srcs st = mergeTags u T (srcs.filter (fun s => s != T)) st := by
  induction srcs with
  | nil => intro st; rfl
  | cons s rest ih =>
    intro st
    by_cases hs : s = T
    · rw [hs]
      rw [show (T :: rest).filter (fun x => x != T) = rest.filter (fun x => x != T) by simp]
      show rest.foldl (mergeStep u T) (mergeStep u T st T) = _
      rw [mergeStep_self]
      exact ih st
    · rw [show (s :: rest).filter (fun x => x != T) = s :: rest.filter (fun x => x != T) by
        simp [List.filter_cons, bne_iff_ne, hs]]
      show rest.foldl (mergeStep u T) (mergeStep u T st s)
        = (rest.filter (fun x => x != T)).foldl (mergeStep u T) (mergeStep u T st s)
      exact ih (mergeStep u T st s)

theorem mergeTags_tags_sub (u T : Int) (srcs : List Int) :
    ∀ (st : Storage) (t : Tag), t ∈ (mergeTags u T srcs st).tags → t ∈ st.tags := by
  induction srcs with
  | nil => intro st t h; simpa [mergeTags] using h
  | cons s rest ih =>
    intro st t h
    simp only [mergeTags, List.foldl_cons] at h
    exact mergeStep_tags_sub u T st s t (ih _ t h)

theorem mergeTags_deletes_owned (u T : Int) (srcs : List Int) :
    ∀ (st : Storage) (s : Int), s ∈ srcs → s ≠ T →
      ∀ t ∈ (mergeTags u T srcs st).tags, ¬(t.id = s ∧ t.userID = u) := by
  induction srcs with
  | nil => intro st s h; simp at h
  | cons s0 rest ih =>
    intro st s hin hne t ht
    simp only [mergeTags, List.foldl_cons] at ht
    rcases List.mem_cons.mp hin with rfl | hrest
    · exact mergeStep_deletes u T st s hne t (mergeTags_tags_sub u T rest _ t ht)
    · exact ih _ s hrest hne t ht

/-! ## Lemmas about the merge transaction -/

theorem mergeLoop_ok (u T : Int) (fault : Nat → Bool) :
    ∀ (l : List Int) (i : Nat) (tx res : Storage),
      mergeLoop u T fault l i tx = Except.ok res →
      res = l.foldl (mergeStep u T) tx := by
  intro l
  induction l with
  | nil =>
    intro i tx res h
    simp only [mergeLoop] at h
    simp only [List.foldl_nil]
    exact (Except.ok.inj h).symm
  | cons sid rest ih =>
    intro i tx res h
    unfold mergeLoop at h
    split at h
    · next hs =>
      simp only [List.foldl_cons, hs, mergeStep_self]
      exact ih i tx res h
    · next hs =>
      split at h
      · exact absurd h (by simp)
      · split at h
        · exact absurd h (by simp)
        · have hres := ih (i + 2) _ res h
          simp only [List.foldl_cons]
          rw [hres]
          have hstep : mergeStep u T tx sid
              = deleteTagCascade u sid (reassignInsert T sid tx) := by
            unfold mergeStep
            rw [if_neg hs]
          rw [hstep]

/-! ## Example states for the concrete theorems -/

/-- A one-owner state: user 1 owns tags 7 ("target") and 5 ("alias") and
entry 42, which carries tag 5 with source `auto` created at instant 3. -/
def stMergeW : Storage :=
  ⟨[⟨7, 1, "target", 0⟩, ⟨5, 1, "alias", 0⟩], [⟨42, 1⟩], [⟨42, 5, "auto", 3⟩], [], []⟩

/-- A two-owner state: user 1 owns tag 7, user 2 owns tag 5 and entry 10,
and entry 10 carries tag 5. -/
def stCross : Storage :=
  ⟨[⟨7, 1, "target", 0⟩, ⟨5, 2, "mine", 0⟩], [⟨10, 2⟩], [⟨10, 5, "auto", 0⟩], [], []⟩

/-- A two-owner state with no associations: user 1 owns tag 7, user 2 owns
tag 5. -/
def stForeign : Storage :=
  ⟨[⟨7, 1, "target", 0⟩, ⟨5, 2, "foreign", 0⟩], [], [], [], []⟩

/-! ## Claim theorems -/

/-- C1, counterexample to the claim as stated: user 1 merges source tag 5
into their tag 7, where tag 5 exists but is owned by user 2.  The merge
succeeds, yet the non-skipped source tag 5 is not deleted (the whole state
is unchanged), because the `DELETE FROM tags` statement is scoped to
`user_id = $2` and its affected-row count is never checked. -/
theorem mergeTags_unowned_source_not_deleted :
    mergeTags 1 7 [5] stForeign = stForeign ∧
    (mergeTags 1 7 [5] stForeign).tags.any (fun t => t.id == 5) = true := by
  decide

/-- C1 (amended): for every owner, target tag and list of source tag IDs,
`MergeTags` (i) gives every association pointing at a listed source tag a
target-tag association for the same entry, (ii) creates only rows that are
copies of some source-tag association re-pointed at the target with their
`source` and `created_at` preserved, (iii) never removes or rewrites an
existing target-tag association, (iv) preserves uniqueness of
`(entry_id, tag_id)` pairs, so no duplicate pair is created, (v) skips
entirely every source ID equal to the target ID, and (vi) deletes every
non-skipped source tag *owned by the calling owner* (a source tag owned by
another user survives, as the counterexample shows). -/
theorem mergeTags_spec (u T : Int) (srcs : List Int) (st : Storage) :
    (∀ et ∈ st.entry_tags, et.tagID ∈ srcs → et.tagID ≠ T →
      ∃ z ∈ (mergeTags u T srcs st).entry_tags, z.entryID = et.entryID ∧ z.tagID = T) ∧
    (∀ z ∈ (mergeTags u T srcs st).entry_tags,
      z ∈ st.entry_tags ∨
        (z.tagID = T ∧ ∃ et ∈ st.entry_tags, et.tagID ∈ srcs ∧ et.tagID ≠ T ∧
          et.entryID = z.entryID ∧ et.source = z.source ∧ et.createdAt = z.createdAt)) ∧
    (∀ et ∈ st.entry_tags, et.tagID = T → et ∈ (mergeTags u T srcs st).entry_tags) ∧
    (UniqPairs st.entry_tags → UniqPairs (mergeTags u T srcs st).entry_tags) ∧
    (mergeTags u T srcs st = mergeTags u T (srcs.filter (fun s => s != T)) st) ∧
    (∀ s ∈ srcs, s ≠ T → ∀ t ∈ (mergeTags u T srcs st).tags, ¬(t.id = s ∧ t.userID = u)) :=
  ⟨fun et h1 h2 h3 => mergeTags_reassigns u T srcs st et h1 h2 h3,
   fun z hz => mergeTags_prov u T srcs st z hz,
   fun et h1 h2 => mergeTags_keeps_target u T srcs st et h1 h2,
   fun h => mergeTags_uniq u T srcs st h,
   mergeTags_skips_self u T srcs st,
   fun s hs hne t ht => mergeTags_deletes_owned u T srcs st s hs hne t ht⟩

/-- C1 witness: the amended merge theorem instantiated on `stMergeW`, where
user 1 merges their tag 5 into their tag 7. -/
theorem mergeTags_spec_witness :
    (∃ z ∈ (mergeTags 1 7 [5] stMergeW).entry_tags, z.entryID = 42 ∧ z.tagID = 7) ∧
    UniqPairs (mergeTags 1 7 [5] stMergeW).entry_tags ∧
    (∀ t ∈ (mergeTags 1 7 [5] stMergeW).tags, ¬(t.id = 5 ∧ t.userID = 1)) := by
  obtain ⟨hA, _, _, hD, _, hF⟩ := mergeTags_spec 1 7 [5] stMergeW
  exact ⟨hA ⟨42, 5, "auto", 3⟩ (by decide) (by decide) (by decide),
    hD (by decide), hF 5 (by decide) (by decide)⟩

/-- C2: the merge transaction is atomic on failure.  For every fault
schedule, if `MergeTags` returns an error then the observable state is the
original one (no source tag deleted, no reassignment visible), and if it
returns no error the observable state is exactly the full pure merge. -/
theorem mergeTagsFaulty_atomic (fault : Nat → Bool) (beginFail commitFail : Bool)
    (u T : Int) (srcs : List Int) (st : Storage) :
    (∀ e, (mergeTagsFaulty fault beginFail commitFail u T srcs st).2 = some e →
      (mergeTagsFaulty fault beginFail commitFail u T srcs st).1 = st) ∧
    ((mergeTagsFaulty fault beginFail commitFail u T srcs st).2 = none →
      (mergeTagsFaulty fault beginFail commitFail u T srcs st).1 = mergeTags u T srcs st) := by
  unfold mergeTagsFaulty
  cases beginFail with
  | true => simp
  | false =>
    simp only [Bool.false_eq_true, if_false]
    cases hm : mergeLoop u T fault srcs 0 st with
    | error e => simp
    | ok tx =>
      cases commitFail with
      | true => simp
      | false =>
        simp only [Bool.false_eq_true, if_false]
        constructor
        · intro e he
          simp at he
        · intro _
          exact mergeLoop_ok u T fault srcs 0 st tx hm

/-- C2 witness: on `stMergeW`, a fault injected into the source-tag delete
statement leaves the observable state unchanged, and the fault-free run
commits exactly the pure merge. -/
theorem mergeTagsFaulty_atomic_witness :
    (mergeTagsFaulty (fun i => i == 1) false false 1 7 [5] stMergeW).1 = stMergeW ∧
    (mergeTagsFaulty (fun _ => false) false false 1 7 [5] stMergeW).1
      = mergeTags 1 7 [5] stMergeW := by
  constructor
  · exact (mergeTagsFaulty_atomic (fun i => i == 1) false false 1 7 [5] stMergeW).1
      "store: unable to delete source tag" (by decide)
  · exact (mergeTagsFaulty_atomic (fun _ => false) false false 1 7 [5] stMergeW).2 (by decide)

/-- C3, code-bug evidence: invariant I2 is *not* preserved by `MergeTags`.
On `stCross` (where I2 holds), user 2 merges their tag 5 into tag 7 owned
by user 1: `MergeTags` checks neither that the target tag belongs to the
caller nor that the reassigned associations do, so it creates the
association (entry 10 owned by user 2, tag 7 owned by user 1) and I2 is
violated. -/
theorem mergeTags_breaks_i2 :
    i2 stCross = true ∧
    i2 (mergeTags 2 7 [5] stCross) = false ∧
    (mergeTags 2 7 [5] stCross).entry_tags = [⟨10, 7, "auto", 0⟩] ∧
    (mergeTags 2 7 [5] stCross).tags = [⟨7, 1, "target", 0⟩] := by
  decide

/-! ## Lemmas about the attach upsert -/

theorem updSource_entryID (E T : Int) (s : String) (et : EntryTag) :
    (updSource E T s et).entryID = et.entryID := by
  unfold updSource; split <;> rfl

theorem updSource_tagID (E T : Int) (s : String) (et : EntryTag) :
    (updSource E T s et).tagID = et.tagID := by
  unfold updSource; split <;> rfl

theorem pairB_updSource (E T : Int) (s : String) (et : EntryTag) :
    pairB E T (updSource E T s et) = pairB E T et := by
  unfold updSource; split <;> rfl

theorem any_map_updSource (E T : Int) (s : String) (l : List EntryTag) :
    (l.map (updSource E T s)).any (pairB E T) = l.any (pairB E T) := by
  rw [List.any_map]
  congr 1
  exact funext (pairB_updSource E T s)

theorem filter_map_updSource (E T : Int) (s : String) (l : List EntryTag) :
    (l.map (updSource E T s)).filter (pairB E T)
      = (l.filter (pairB E T)).map (updSource E T s) := by
  rw [List.filter_map]
  congr 1
  apply List.filter_congr
  intro x _
  exact pairB_updSource E T s x

theorem mem_map_updSource_pair (E T : Int) (s : String) (l : List EntryTag)
    (et : EntryTag) (h : et ∈ l.map (updSource E T s)) (hp : pairB E T et = true) :
    et.source = s := by
  obtain ⟨x, _, hx⟩ := List.mem_map.mp h
  subst hx
  rw [pairB_updSource] at hp
  unfold updSource
  simp [hp]

theorem mem_map_updSource_nonpair (E T : Int) (s : String) (l : List EntryTag)
    (et : EntryTag) (h : et ∈ l.map (updSource E T s)) (hp : pairB E T et = false) :
    et ∈ l := by
  obtain ⟨x, hxl, hx⟩ := List.mem_map.mp h
  subst hx
  rw [pairB_updSource] at hp
  unfold updSource
  rw [hp]
  exact hxl

theorem uniq_map_updSource (E T : Int) (s : String) (l : List EntryTag)
    (h : UniqPairs l) : UniqPairs (l.map (updSource E T s)) := by
  apply List.pairwise_map.mpr
  apply h.imp
  intro a b hab
  rw [updSource_entryID, updSource_entryID, updSource_tagID, updSource_tagID]
  exact hab

theorem uniq_append_new (E T : Int) (s : String) (n : Int) (l : List EntryTag)
    (h : UniqPairs l) (hany : l.any (pairB E T) = false) :
    UniqPairs (l ++ [⟨E, T, s, n⟩]) := by
  refine List.pairwise_append.mpr ⟨h, List.pairwise_singleton _ _, ?_⟩
  intro x hx b hb
  simp only [List.mem_singleton] at hb
  subst hb
  rintro ⟨h1, h2⟩
  exact (List.any_eq_false.mp hany) x hx (by simp [pairB, h1, h2])

theorem etCount_le_one (E T : Int) (l : List EntryTag) (h : UniqPairs l) :
    (l.filter (pairB E T)).length ≤ 1 := by
  have hp : (l.filter (pairB E T)).Pairwise
      (fun a b => ¬(a.entryID = b.entryID ∧ a.tagID = b.tagID)) :=
    h.sublist (List.filter_sublist _)
  cases hf : l.filter (pairB E T) with
  | nil => simp
  | cons a t2 =>
    cases t2 with
    | nil => simp
    | cons b t3 =>
      exfalso
      rw [hf] at hp
      have hab := (List.pairwise_cons.mp hp).1 b (List.mem_cons_self b t3)
      have ha : pairB E T a = true := by
        have : a ∈ l.filter (pairB E T) := by rw [hf]; exact List.mem_cons_self _ _
        exact List.of_mem_filter this
      have hb : pairB E T b = true := by
        have : b ∈ l.filter (pairB E T) := by
          rw [hf]; exact List.mem_cons_of_mem a (List.mem_cons_self b t3)
        exact List.of_mem_filter this
      simp only [pairB, Bool.and_eq_true, beq_iff_eq] at ha hb
      exact hab ⟨ha.1.trans hb.1.symm, ha.2.trans hb.2.symm⟩

theorem count_pos_of_any {α : Type} (l : List α) (p : α → Bool)
    (h : l.any p = true) : 0 < (l.filter p).length := by
  obtain ⟨x, hx, hp⟩ := List.any_eq_true.mp h
  exact List.length_pos.mpr (List.ne_nil_of_mem (List.mem_filter.mpr ⟨hx, hp⟩))

theorem addTagToEntry_ok (u E T : Int) (src : String) (now : Int) (st : Storage)
    (hE : st.entries.any (fun e => e.id == E && e.userID == u) = true)
    (hT : st.tags.any (fun t => t.id == T && t.userID == u) = true)
    (hsrc : (src == "") = false) :
    addTagToEntry u E T src now st =
      (if st.entry_tags.any (pairB E T) then
        Except.ok { st with entry_tags := st.entry_tags.map (updSource E T src) }
      else Except.ok { st with entry_tags := st.entry_tags ++ [⟨E, T, src, now⟩] }) := by
  unfold addTagToEntry
  simp only [hE, hT, hsrc, Bool.not_true, Bool.false_eq_true, if_false]

/-- A one-owner state for the attach scenario: user 1 owns tag 3 ("go") and
entry 42; no associations yet. -/
def stAttach : Storage := ⟨[⟨3, 1, "go", 0⟩], [⟨42, 1⟩], [], [], []⟩

/-- C4: `AddTagToEntry` is an upsert on `(entry_id, tag_id)`.  When the
association already exists, re-attaching rewrites its `source` to the new
value without changing the number of rows and without touching any other
row; and attaching with `auto` then `manual` succeeds, leaves the pair
present, every row of the pair carries `manual`, and — when the state
satisfies the pair-uniqueness constraint — there is exactly one row for the
pair afterwards and uniqueness is preserved. -/
theorem addTagToEntry_upsert (u E T : Int) (src : String) (nowA nowM : Int) (st : Storage)
    (hE : st.entries.any (fun e => e.id == E && e.userID == u) = true)
    (hT : st.tags.any (fun t => t.id == T && t.userID == u) = true)
    (hsrc : (src == "") = false) :
    (st.entry_tags.any (pairB E T) = true →
      addTagToEntry u E T src nowA st
        = Except.ok { st with entry_tags := st.entry_tags.map (updSource E T src) } ∧
      (st.entry_tags.map (updSource E T src)).length = st.entry_tags.length ∧
      (∀ et ∈ st.entry_tags.map (updSource E T src), pairB E T et = true → et.source = src) ∧
      (∀ et ∈ st.entry_tags.map (updSource E T src), pairB E T et = false → et ∈ st.entry_tags)) ∧
    (∃ st1 st2, addTagToEntry u E T TagSourceAuto nowA st = Except.ok st1 ∧
      addTagToEntry u E T TagSourceManual nowM st1 = Except.ok st2 ∧
      (∀ et ∈ st2.entry_tags, pairB E T et = true → et.source = TagSourceManual) ∧
      st2.entry_tags.any (pairB E T) = true ∧
      (UniqPairs st.entry_tags → etCount st2 E T = 1 ∧ UniqPairs st2.entry_tags)) := by
  constructor
  · intro hp
    rw [addTagToEntry_ok u E T src nowA st hE hT hsrc, if_pos hp]
    exact ⟨rfl, List.length_map _ _,
      fun et h hq => mem_map_updSource_pair E T src _ et h hq,
      fun et h hq => mem_map_updSource_nonpair E T src _ et h hq⟩
  · have hA := addTagToEntry_ok u E T TagSourceAuto nowA st hE hT rfl
    cases hp : st.entry_tags.any (pairB E T) with
    | true =>
      rw [if_pos hp] at hA
      have hp1 : (st.entry_tags.map (updSource E T TagSourceAuto)).any (pairB E T) = true := by
        rw [any_map_updSource]; exact hp
      have hM := addTagToEntry_ok u E T TagSourceManual nowM
        { st with entry_tags := st.entry_tags.map (updSource E T TagSourceAuto) } hE hT rfl
      rw [if_pos hp1] at hM
      refine ⟨_, _, hA, hM, ?_, ?_, ?_⟩
      · exact fun et h hq => mem_map_updSource_pair E T TagSourceManual _ et h hq
      · rw [any_map_updSource, any_map_updSource]; exact hp
      · intro hu
        constructor
        · unfold etCount
          rw [filter_map_updSource, filter_map_updSource, List.length_map, List.length_map]
          exact Nat.le_antisymm (etCount_le_one E T _ hu)
            (count_pos_of_any _ _ hp)
        · exact uniq_map_updSource E T TagSourceManual _
            (uniq_map_updSource E T TagSourceAuto _ hu)
    | false =>
      rw [if_neg (by simp [hp])] at hA
      have hp1 : (st.entry_tags ++ [(⟨E, T, TagSourceAuto, nowA⟩ : EntryTag)]).any (pairB E T) = true := by
        simp [List.any_append, pairB]
      have hM := addTagToEntry_ok u E T TagSourceManual nowM
        { st with entry_tags := st.entry_tags ++ [(⟨E, T, TagSourceAuto, nowA⟩ : EntryTag)] } hE hT rfl
      rw [if_pos hp1] at hM
      refine ⟨_, _, hA, hM, ?_, ?_, ?_⟩
      · exact fun et h hq => mem_map_updSource_pair E T TagSourceManual _ et h hq
      · rw [any_map_updSource]; exact hp1
      · intro hu
        constructor
        · unfold etCount
          rw [filter_map_updSource, List.length_map, List.filter_append,
            List.filter_eq_nil_iff.mpr (by simpa using List.any_eq_false.mp hp)]
          simp [pairB]
        · exact uniq_map_updSource E T TagSourceManual _ (uniq_append_new E T TagSourceAuto nowA _ hu hp)

/-- C4 witness: on `stAttach`, attaching tag 3 to entry 42 with `auto` then
`manual` leaves exactly one association row for the pair, and its source is
`manual`. -/
theorem addTagToEntry_upsert_witness :
    ∃ st1 st2, addTagToEntry 1 42 3 TagSourceAuto 9 stAttach = Except.ok st1 ∧
      addTagToEntry 1 42 3 TagSourceManual 11 st1 = Except.ok st2 ∧
      etCount st2 42 3 = 1 ∧
      (∀ et ∈ st2.entry_tags, pairB 42 3 et = true → et.source = TagSourceManual) := by
  obtain ⟨-, st1, st2, hA, hM, hsrcs, -, huniq⟩ :=
    addTagToEntry_upsert 1 42 3 "x" 9 11 stAttach (by decide) (by decide) (by decide)
  exact ⟨st1, st2, hA, hM, (huniq (by decide)).1, hsrcs⟩

/-! ## Lemmas about cluster queries -/

theorem find?_eq_some_of_unique {α : Type} (p : α → Bool) :
    ∀ (l : List α) (c : α), c ∈ l → p c = true → (∀ x ∈ l, p x = true → x = c) →
      l.find? p = some c := by
  intro l
  induction l with
  | nil => intro c hc _ _; simp at hc
  | cons a t ih =>
    intro c hc hpc huniq
    cases hpa : p a with
    | true =>
      rw [List.find?_cons_of_pos _ hpa]
      exact congrArg some (huniq a (List.mem_cons_self a t) hpa)
    | false =>
      rw [List.find?_cons_of_neg _ (by simp [hpa])]
      rcases List.mem_cons.mp hc with rfl | ht
      · rw [hpc] at hpa; simp at hpa
      · exact ih c ht hpc (fun x hx hp => huniq x (List.mem_cons_of_mem a hx) hp)

/-- An example state with three clusters of user 1: cluster 1 expired at 5,
cluster 2 expires at 100, cluster 3 never expires; entry 42 is a member of
clusters 1 and 2. -/
def stClusters : Storage :=
  ⟨[], [], [],
   [⟨1, 1, "old", 0, some 5⟩, ⟨2, 1, "new", 0, some 100⟩, ⟨3, 1, "ever", 0, none⟩],
   [⟨1, 42⟩, ⟨2, 42⟩]⟩

/-- C5: a cluster whose `expires_at` is in the past is excluded from the
`Clusters` listing and from `GetEntryClusters`, but `ClusterByID` still
returns it; a cluster with NULL or future `expires_at` appears in the
listing and, when it contains the entry, in `GetEntryClusters`. -/
theorem clusterExpiry_visibility (u now : Int) (st : Storage) (c : Cluster)
    (hc : c ∈ st.clusters) (hu : c.userID = u)
    (hids : st.clusters.Pairwise (fun a b => a.id ≠ b.id)) :
    clusterByID u c.id st = some c ∧
    (∀ t, c.expiresAt = some t → t < now →
      (∀ p ∈ clustersList u now st, p.1.id ≠ c.id) ∧
      (∀ e, c ∉ getEntryClusters u e now st)) ∧
    ((c.expiresAt = none ∨ ∃ t, c.expiresAt = some t ∧ now < t) →
      (∃ p ∈ clustersList u now st, p.1 = c) ∧
      (∀ e, st.cluster_entries.any (fun ce => ce.clusterID == c.id && ce.entryID == e) = true →
        c ∈ getEntryClusters u e now st)) := by
  have hsym : Symmetric (fun a b : Cluster => a.id ≠ b.id) := by
    intro x y h he
    exact h he.symm
  refine ⟨?_, ?_, ?_⟩
  · apply find?_eq_some_of_unique _ st.clusters c hc
    · simp [hu]
    · intro x hx hp
      simp only [Bool.and_eq_true, beq_iff_eq] at hp
      by_contra hne
      exact List.Pairwise.forall hsym hids hx hc hne hp.2
  · intro t ht hlt
    have hact : clusterActive now c = false := by
      simp only [clusterActive, ht, decide_eq_false_iff_not]
      omega
    constructor
    · intro p hp hid
      obtain ⟨c2, hc2, hpc2⟩ := List.mem_map.mp hp
      have hc2f := List.of_mem_filter hc2
      have hc2l := List.mem_of_mem_filter hc2
      simp only [Bool.and_eq_true, beq_iff_eq] at hc2f
      have hcid : c2.id = c.id := by rw [← hid, ← hpc2]
      have hc2c : c2 = c := by
        by_contra hne
        exact List.Pairwise.forall hsym hids hc2l hc hne hcid
      rw [hc2c, hact] at hc2f
      exact Bool.false_ne_true hc2f.2
    · intro e hmem
      have hf := List.of_mem_filter hmem
      simp only [Bool.and_eq_true] at hf
      rw [hact] at hf
      exact Bool.false_ne_true hf.1.2
  · intro hact2
    have hact : clusterActive now c = true := by
      rcases hact2 with hnone | ⟨t, ht, hlt⟩
      · simp [clusterActive, hnone]
      · simp [clusterActive, ht, hlt]
    constructor
    · exact ⟨(c, (st.cluster_entries.filter (fun ce => ce.clusterID == c.id)).length),
        List.mem_map_of_mem _ (List.mem_filter.mpr ⟨hc, by simp [hu, hact]⟩), rfl⟩
    · intro e hce
      exact List.mem_filter.mpr ⟨hc, by simp [hu, hact, hce]⟩

/-- C5 witness: on `stClusters` at `now = 10`, the expired cluster 1 is
absent from both listings but `ClusterByID` still returns it, while the
active cluster 2 appears in both. -/
theorem clusterExpiry_visibility_witness :
    clusterByID 1 1 stClusters = some ⟨1, 1, "old", 0, some 5⟩ ∧
    (∀ p ∈ clustersList 1 10 stClusters, p.1.id ≠ 1) ∧
    (⟨1, 1, "old", 0, some 5⟩ : Cluster) ∉ getEntryClusters 1 42 10 stClusters ∧
    (∃ p ∈ clustersList 1 10 stClusters, p.1 = (⟨2, 1, "new", 0, some 100⟩ : Cluster)) ∧
    (⟨2, 1, "new", 0, some 100⟩ : Cluster) ∈ getEntryClusters 1 42 10 stClusters := by
  obtain ⟨h1, h2, -⟩ := clusterExpiry_visibility 1 10 stClusters ⟨1, 1, "old", 0, some 5⟩
    (by decide) (by decide) (by decide)
  obtain ⟨hA, hB⟩ := h2 5 rfl (by decide)
  obtain ⟨-, -, h3⟩ := clusterExpiry_visibility 1 10 stClusters ⟨2, 1, "new", 0, some 100⟩
    (by decide) (by decide) (by decide)
  obtain ⟨hC, hD⟩ := h3 (Or.inr ⟨100, rfl, by decide⟩)
  exact ⟨h1, hA, hB 42, hC, hD 42 (by decide)⟩

/-! ## Lemmas about the expiry sweep -/

theorem removeExpiredClusters_noop (now : Int) (st : Storage)
    (h : ∀ c ∈ st.clusters, isExpired now c = false) :
    removeExpiredClusters now st = (st, 0) := by
  unfold removeExpiredClusters
  have hcl : st.clusters.filter (fun c => !(isExpired now c)) = st.clusters :=
    List.filter_eq_self.mpr (fun c hc => by simp [h c hc])
  have hexp : st.clusters.filter (fun c => isExpired now c) = [] :=
    List.filter_eq_nil_iff.mpr (fun c hc => by simp [h c hc])
  have hce : st.cluster_entries.filter (fun ce =>
      !(st.clusters.any (fun c => isExpired now c && c.id == ce.clusterID)))
      = st.cluster_entries := by
    apply List.filter_eq_self.mpr
    intro ce _
    have hfalse : (st.clusters.any (fun c => isExpired now c && c.id == ce.clusterID))
        = false := by
      apply List.any_eq_false.mpr
      intro c hc
      simp [h c hc]
    simp [hfalse]
  rw [hcl, hexp, hce]
  rfl

/-- C6: `RemoveExpiredClusters` deletes exactly the clusters whose
`expires_at` is non-NULL and earlier than the current time, across all
owners; it leaves every other cluster and every other table unchanged and
returns the number of deleted clusters; an immediately repeated call on the
resulting state deletes nothing and returns 0. -/
theorem removeExpiredClusters_sweep (now : Int) (st : Storage) :
    (removeExpiredClusters now st).1.clusters
        = st.clusters.filter (fun c => !(isExpired now c)) ∧
    (removeExpiredClusters now st).2
        = (st.clusters.filter (fun c => isExpired now c)).length ∧
    (removeExpiredClusters now st).1.tags = st.tags ∧
    (removeExpiredClusters now st).1.entries = st.entries ∧
    (removeExpiredClusters now st).1.entry_tags = st.entry_tags ∧
    removeExpiredClusters now ((removeExpiredClusters now st).1)
        = ((removeExpiredClusters now st).1, 0) := by
  refine ⟨rfl, rfl, rfl, rfl, rfl, ?_⟩
  apply removeExpiredClusters_noop
  intro c hc
  have h := List.of_mem_filter hc
  simpa using h

/-! ## Lemmas about cluster membership -/

theorem addEntryToCluster_pair_mem (c e : Int) (st : Storage) :
    (addEntryToCluster c e st).cluster_entries.any
      (fun ce => ce.clusterID == c && ce.entryID == e) = true := by
  unfold addEntryToCluster
  split
  · next h => exact h
  · simp [List.any_append]

theorem addEntryToCluster_noop (c e : Int) (st : Storage)
    (h : st.cluster_entries.any (fun ce => ce.clusterID == c && ce.entryID == e) = true) :
    addEntryToCluster c e st = st := by
  unfold addEntryToCluster
  rw [if_pos h]

theorem addEntryTimes_stable (c e : Int) :
    ∀ (n : Nat) (st : Storage),
      st.cluster_entries.any (fun ce => ce.clusterID == c && ce.entryID == e) = true →
      addEntryTimes c e n st = st := by
  intro n
  induction n with
  | zero => intro st _; rfl
  | succ m ih =>
    intro st h
    show addEntryTimes c e m (addEntryToCluster c e st) = st
    rw [addEntryToCluster_noop c e st h]
    exact ih st h

theorem addEntryTimes_succ_eq (c e : Int) (n : Nat) (st : Storage) :
    addEntryTimes c e (n + 1) st = addEntryToCluster c e st := by
  show addEntryTimes c e n (addEntryToCluster c e st) = _
  exact addEntryTimes_stable c e n _ (addEntryToCluster_pair_mem c e st)

theorem ceCount_add_eq_one (c e : Int) (st : Storage) (h1 : ceCount st c e ≤ 1) :
    ceCount (addEntryToCluster c e st) c e = 1 := by
  unfold addEntryToCluster
  by_cases hp : st.cluster_entries.any (fun ce => ce.clusterID == c && ce.entryID == e) = true
  · rw [if_pos hp]
    have hpos := count_pos_of_any _ _ hp
    unfold ceCount at h1 ⊢
    omega
  · rw [if_neg hp]
    have hp0 : st.cluster_entries.any (fun ce => ce.clusterID == c && ce.entryID == e)
        = false := by
      simpa using hp
    unfold ceCount
    rw [List.filter_append,
      List.filter_eq_nil_iff.mpr (by simpa using List.any_eq_false.mp hp0)]
    simp

/-- C7: adding an entry to a cluster is idempotent.  Adding an existing
pair is a successful no-op, `n + 1` repeated adds are the same as one add,
the membership-row count for the pair is exactly one afterwards, and the
cluster's live entry count is unchanged after the first add. -/
theorem addEntryToCluster_idem (c e : Int) (st : Storage) (n : Nat)
    (h1 : ceCount st c e ≤ 1) :
    (st.cluster_entries.any (fun ce => ce.clusterID == c && ce.entryID == e) = true →
      addEntryToCluster c e st = st) ∧
    addEntryTimes c e (n + 1) st = addEntryToCluster c e st ∧
    ceCount (addEntryTimes c e (n + 1) st) c e = 1 ∧
    clusterEntryCount (addEntryTimes c e (n + 1) st) c
      = clusterEntryCount (addEntryToCluster c e st) c := by
  refine ⟨addEntryToCluster_noop c e st, addEntryTimes_succ_eq c e n st, ?_, ?_⟩
  · rw [addEntryTimes_succ_eq]
    exact ceCount_add_eq_one c e st h1
  · rw [addEntryTimes_succ_eq]

/-- C7 witness: on `stClusters`, where the pair (cluster 1, entry 42)
already exists, four repeated adds equal a single add and leave exactly one
membership row. -/
theorem addEntryToCluster_idem_witness :
    addEntryTimes 1 42 4 stClusters = addEntryToCluster 1 42 stClusters ∧
    ceCount (addEntryTimes 1 42 4 stClusters) 1 42 = 1 ∧
    addEntryToCluster 1 42 stClusters = stClusters := by
  obtain ⟨hnoop, h2, h3, -⟩ := addEntryToCluster_idem 1 42 stClusters 3 (by decide)
  exact ⟨h2, h3, hnoop (by decide)⟩

/-- C8: `RemoveTagFromEntry` for an entry owned by the caller always
succeeds; it deletes exactly the rows of the `(entry, tag)` pair and leaves
every other table unchanged, and when no such association exists the state
is fully unchanged (idempotent detach). -/
theorem removeTagFromEntry_spec (u E T : Int) (st : Storage)
    (hE : st.entries.any (fun e => e.id == E && e.userID == u) = true) :
    removeTagFromEntry u E T st = Except.ok { st with
        entry_tags := st.entry_tags.filter (fun et => !(et.entryID == E && et.tagID == T)) } ∧
    (st.entry_tags.any (fun et => et.entryID == E && et.tagID == T) = false →
      removeTagFromEntry u E T st = Except.ok st) := by
  constructor
  · unfold removeTagFromEntry
    rw [if_pos hE]
  · intro hn
    unfold removeTagFromEntry
    rw [if_pos hE]
    have hfil : st.entry_tags.filter (fun et => !(et.entryID == E && et.tagID == T))
        = st.entry_tags := by
      apply List.filter_eq_self.mpr
      intro x hx
      simp [List.any_eq_false.mp hn x hx]
    rw [hfil]

/-- C8 witness: detaching tag 3 from entry 42 on `stAttach`, which has no
association at all, succeeds and returns the unchanged state. -/
theorem removeTagFromEntry_spec_witness :
    removeTagFromEntry 1 42 3 stAttach = Except.ok stAttach := by
  exact (removeTagFromEntry_spec 1 42 3 stAttach (by decide)).2 (by decide)

/-- C9: when no stored tag matches `(id, userID)`, `UpdateTag` still
returns success (zero affected rows is not an error) and leaves the state
unchanged, whereas `RemoveTag` on the same missing tag returns an error. -/
theorem updateTag_zero_rows (tag : Tag) (st : Storage)
    (h : st.tags.any (fun t => t.id == tag.id && t.userID == tag.userID) = false) :
    updateTag tag st = Except.ok st ∧
    ∃ e, removeTag tag.userID tag.id st = Except.error e := by
  constructor
  · unfold updateTag
    have hmap : st.tags.map (fun t =>
        if t.id == tag.id && t.userID == tag.userID then { t with name := tag.name } else t)
        = st.tags := by
      apply map_id_of_eq
      intro x hx
      simp [List.any_eq_false.mp h x hx]
    rw [hmap]
  · refine ⟨"store: no tag has been removed", ?_⟩
    unfold removeTag
    have hfil : st.tags.filter (fun t => !(t.id == tag.id && t.userID == tag.userID))
        = st.tags := by
      apply List.filter_eq_self.mpr
      intro x hx
      simp [List.any_eq_false.mp h x hx]
    rw [hfil]
    simp

/-- C9 witness: tag 99 does not exist in `stAttach`, yet `UpdateTag`
succeeds with the state unchanged while `RemoveTag` errors. -/
theorem updateTag_zero_rows_witness :
    updateTag ⟨99, 1, "zzz", 0⟩ stAttach = Except.ok stAttach ∧
    ∃ e, removeTag 1 99 stAttach = Except.error e := by
  obtain ⟨h1, h2⟩ := updateTag_zero_rows ⟨99, 1, "zzz", 0⟩ stAttach (by decide)
  exact ⟨h1, h2⟩

/-- C10: `AddEntriesToCluster` with an empty entry-ID list returns success
immediately and leaves the state unchanged, for every cluster ID and every
fault schedule — in particular even when beginning a transaction would
fail, showing that no transaction is started and no statement is run. -/
theorem addEntriesToCluster_empty_noop (beginFail prepareFail commitFail : Bool)
    (fault : Nat → Bool) (clusterID : Int) (st : Storage) :
    addEntriesToCluster beginFail prepareFail commitFail fault clusterID [] st
      = (st, none) := rfl

end Lintiflux
